import Mathlib

/-!
Piano and Shooter: a shallow embedding of `src/main.cpp`.

The two classes of the program, `Piano` and `Shooter`, are embedded as Lean
structures with explicit state passing; the drawing code is left out.

* `int` values are `Int`.  The program's integers are note indices, the write
  cursor, the sample index (between `-1` and the number of files) and the
  transpose (one step per key press); none of them comes near the limits of a
  32-bit `int`, and wrap-around is not modelled.
* Array and vector subscripts are checked: a subscript outside the container is
  reported as `Fault.undefinedBehaviour`, a thrown `std::runtime_error` as
  `Fault.runtimeError`.
* `float` values live in an arbitrary carrier type.  The floating-point
  operations the code uses are the fields of the classes `FloatArith` (shooter)
  and `PitchArith` (piano); no algebraic law is assumed about them, so a result
  stated for an arbitrary carrier holds under IEEE rounding, infinities and NaN.
* The outside world (the directory listing, whether a sound file decodes, the
  storage content before a constructor runs) is passed in as a parameter.
-/

/-- Ways in which a call can fail to produce a state. -/
inductive Fault where
  | undefinedBehaviour
  | runtimeError (msg : String)
deriving DecidableEq, Repr

/-- Arithmetic on `float` used by `Shooter`: integer-valued literals, `+`, `*` and `>`. -/
class FloatArith (F : Type) where
  ofInt : Int → F
  add : F → F → F
  mul : F → F → F
  gt : F → F → Bool

/-- Exact rational arithmetic.  It agrees with binary32 arithmetic whenever all
operands and results are integers of magnitude below `2^24`. -/
instance exactArith : FloatArith ℚ where
  ofInt := fun z => (z : ℚ)
  add := fun a b => a + b
  mul := fun a b => a * b
  gt := fun a b => decide (a > b)

/-- Checked conversion of an `int` subscript into an index of an array of length `n`. -/
def subscript (n : Nat) (i : Int) : Option (Fin n) :=
  if h : 0 ≤ i ∧ i < n then some ⟨i.toNat, by omega⟩ else none

/-! ## Shooter -/

/-- The `struct Shot` of `Shooter`: state, position and note index. -/
structure Shooter.Shot (F : Type) where
  active : Bool
  x : F
  index : Int
deriving DecidableEq, Repr

/-- The constant `Shooter::n`: maximum number of shots. -/
abbrev Shooter.n : Nat := 40

/-- Data members of `class Shooter` (the drawing shapes are left out). -/
structure Shooter (F : Type) where
  current : Int
  shots : Fin Shooter.n → Shooter.Shot F
  velocity : F
  map : Fin 25 → Int

/-- One iteration of the constructor's loop: count natural notes, store the count. -/
def Shooter.mapStep (acc : Int × (Fin 25 → Int)) (i : Fin 25) : Int × (Fin 25 → Int) :=
  let j : Int := (i.val : Int) % 12
  let count := if j ≠ 1 ∧ j ≠ 3 ∧ j ≠ 6 ∧ j ≠ 8 ∧ j ≠ 10 then acc.1 + 1 else acc.1
  (count, Function.update acc.2 i count)

/-- The constructor `Shooter::Shooter()`.  The argument is the content of the
object's storage before construction: the default member initialisers set
`active`, `current` and `velocity`, the body fills `map`, and the members `x`
and `index` of each shot keep whatever the storage held. -/
def Shooter.construct {F : Type} [FloatArith F] (mem : Shooter F) : Shooter F :=
  { current := 0
    shots := fun i => { mem.shots i with active := false }
    velocity := FloatArith.ofInt 200
    map := ((List.finRange 25).foldl Shooter.mapStep (-1, mem.map)).2 }

/-- The method `Shooter::Shoot(int index)`. -/
def Shooter.Shoot {F : Type} [FloatArith F] (s : Shooter F) (index : Int) :
    Except Fault (Shooter F) :=
  if index < 0 ∨ index ≥ 25 then .ok s
  else
    match subscript Shooter.n s.current with
    | none => .error Fault.undefinedBehaviour
    | some c =>
      let s1 := { s with shots := Function.update s.shots c { s.shots c with active := true } }
      let s2 := { s1 with shots := Function.update s1.shots c { s1.shots c with x := FloatArith.ofInt 0 } }
      let s3 := { s2 with shots := Function.update s2.shots c { s2.shots c with index := index } }
      let s4 := { s3 with current := s3.current + 1 }
      if s4.current ≥ (Shooter.n : Int) then .ok { s4 with current := 0 } else .ok s4

/-- Body of the loop of `Shooter::Update` for slot `i`. -/
def Shooter.updateStep {F : Type} [FloatArith F] (dt range : F) (s : Shooter F)
    (i : Fin Shooter.n) : Shooter F :=
  if !(s.shots i).active then s
  else
    let moved := FloatArith.add (s.shots i).x (FloatArith.mul s.velocity dt)
    let s1 := { s with shots := Function.update s.shots i { s.shots i with x := moved } }
    if FloatArith.gt (s1.shots i).x range then
      { s1 with shots := Function.update s1.shots i { s1.shots i with active := false } }
    else s1

/-- The method `Shooter::Update(float dt, float range)`: the loop over all `n` slots. -/
def Shooter.Update {F : Type} [FloatArith F] (s : Shooter F) (dt range : F) : Shooter F :=
  (List.finRange Shooter.n).foldl (Shooter.updateStep dt range) s

/-- A sequence of `Shoot` calls, stopping at the first fault. -/
def Shooter.shootAll {F : Type} [FloatArith F] (s : Shooter F) :
    List Int → Except Fault (Shooter F)
  | [] => .ok s
  | i :: rest =>
    match Shooter.Shoot s i with
    | .ok s1 => Shooter.shootAll s1 rest
    | .error e => .error e

/-- Number of slots whose `active` flag is set. -/
def Shooter.activeCount {F : Type} (s : Shooter F) : Nat :=
  ((List.finRange Shooter.n).filter (fun i => (s.shots i).active)).length

/-- Storage filled with zeros, used as a sample content of unconstructed storage. -/
def zeroStorage : Shooter ℚ :=
  { current := 0
    shots := fun _ => { active := false, x := 0, index := 0 }
    velocity := 0
    map := fun _ => 0 }

/-- Effect of `Shooter::Update` on one slot, as the specification words it:
an inactive slot is kept, an active one moves by `v * dt` and stays active
exactly when the new position is not greater than `range`. -/
def Shooter.Shot.advance {F : Type} [FloatArith F] (v dt range : F) (sh : Shooter.Shot F) :
    Shooter.Shot F :=
  if sh.active then
    { active := !FloatArith.gt (FloatArith.add sh.x (FloatArith.mul v dt)) range
      x := FloatArith.add sh.x (FloatArith.mul v dt)
      index := sh.index }
  else sh

/-! ## Piano -/

/-- The scan codes of `sf::Keyboard::Scan` that the program names, each one a
distinct enumerator of the library's enumeration; `other` stands for every
remaining scan code. -/
inductive Scan where
  | LShift | Grave | Tab | Num1 | Q | W | Num3 | E | Num4 | R | Num5 | T
  | Y | Num7 | U | Num8 | I | O | Num0 | P | Hyphen | LBracket | Equal | RBracket | Backslash
  | Up | Down | Left | Right
  | other (code : Nat)
deriving DecidableEq, Repr

/-- A `std::filesystem::path`, reduced to the two components the program reads. -/
structure FsPath where
  stem : String
  extension : String
deriving DecidableEq, Repr

/-- Arithmetic on `float` used by `Piano::SetPitch`: conversion from `int`, `/` and `std::pow`. -/
class PitchArith (P : Type) where
  ofInt : Int → P
  div : P → P → P
  pow : P → P → P

/-- Uninterpreted `float` expressions: every operation builds the term that names it. -/
inductive PitchTerm where
  | lit (z : Int)
  | div (a b : PitchTerm)
  | pow (a b : PitchTerm)
deriving DecidableEq, Repr

instance symbolicPitch : PitchArith PitchTerm where
  ofInt := PitchTerm.lit
  div := PitchTerm.div
  pow := PitchTerm.pow

/-- The `struct Note` of `Piano`.  Of the `sf::Sound` member the model keeps the
pitch set by `setPitch` and the number of `play()` requests issued so far. -/
structure Piano.Note (P : Type) where
  pitch : P
  plays : Nat
  keyboard : Scan
deriving DecidableEq, Repr

/-- Data members of `class Piano` (shape, font and text are left out).  The
static `Note::buffer` is represented by the file last decoded into it. -/
structure Piano (P : Type) where
  notes : Fin 25 → Piano.Note P
  transpose : Int
  paths : List FsPath
  current : Int
  buffer : Option FsPath

/-- The method `Piano::LoadSound()`; `loadFromFile` tells whether the sound
library can decode a file. -/
def Piano.LoadSound {P : Type} (loadFromFile : FsPath → Bool) (p : Piano P) :
    Except Fault (Piano P) :=
  let current : Int :=
    if p.current < 0 then (p.paths.length : Int) - 1
    else if p.current ≥ (p.paths.length : Int) then 0
    else p.current
  match subscript p.paths.length current with
  | none => .error Fault.undefinedBehaviour
  | some k =>
    if !loadFromFile (p.paths.get k) then .error (Fault.runtimeError "Can't load sound file")
    else .ok { p with current := current, buffer := some (p.paths.get k) }

/-- The value `std::pow(2.f, (transpose + i - 12)/12.f)` that `Piano::SetPitch` passes to
`setPitch` for note `i`. -/
def Piano.pitchRatio {P : Type} [PitchArith P] (transpose : Int) (i : Fin 25) : P :=
  PitchArith.pow (PitchArith.ofInt 2)
    (PitchArith.div (PitchArith.ofInt (transpose + (i.val : Int) - 12)) (PitchArith.ofInt 12))

/-- Body of the loop of `Piano::SetPitch` for note `i`. -/
def Piano.pitchStep {P : Type} [PitchArith P] (p : Piano P) (i : Fin 25) : Piano P :=
  { p with notes := Function.update p.notes i { p.notes i with pitch := Piano.pitchRatio p.transpose i } }

/-- The method `Piano::SetPitch()`. -/
def Piano.SetPitch {P : Type} [PitchArith P] (p : Piano P) : Piano P :=
  (List.finRange 25).foldl Piano.pitchStep p

/-- The assignment `notes[i].keyboard = key`. -/
def Piano.setKeyboard {P : Type} (p : Piano P) (i : Fin 25) (key : Scan) : Piano P :=
  { p with notes := Function.update p.notes i { p.notes i with keyboard := key } }

/-- The default member initialisers of `Piano`, applied to storage `mem`: `transpose`
is 0, `current` is 4, `paths` is empty, every note has a fresh sound (pitch 1, never
played); the key bindings are not initialised and keep what the storage held. -/
def Piano.initial {P : Type} [PitchArith P] (mem : Piano P) : Piano P :=
  { notes := fun i => { pitch := PitchArith.ofInt 1, plays := 0, keyboard := (mem.notes i).keyboard }
    transpose := 0
    paths := []
    current := 4
    buffer := mem.buffer }

/-- The first loop of the constructor: collect the paths of the `.mp3` entries. -/
def Piano.collectPaths {P : Type} (entries : List FsPath) (p : Piano P) : Piano P :=
  entries.foldl
    (fun q entry => if entry.extension = ".mp3" then { q with paths := q.paths ++ [entry] } else q) p

/-- The last block of the constructor: the 25 assignments of the key bindings. -/
def Piano.bindKeys {P : Type} (p : Piano P) : Piano P :=
  p
  |>.setKeyboard 0 Scan.LShift
  |>.setKeyboard 1 Scan.Grave
  |>.setKeyboard 2 Scan.Tab
  |>.setKeyboard 3 Scan.Num1
  |>.setKeyboard 4 Scan.Q
  |>.setKeyboard 5 Scan.W
  |>.setKeyboard 6 Scan.Num3
  |>.setKeyboard 7 Scan.E
  |>.setKeyboard 8 Scan.Num4
  |>.setKeyboard 9 Scan.R
  |>.setKeyboard 10 Scan.Num5
  |>.setKeyboard 11 Scan.T
  |>.setKeyboard 12 Scan.Y
  |>.setKeyboard 13 Scan.Num7
  |>.setKeyboard 14 Scan.U
  |>.setKeyboard 15 Scan.Num8
  |>.setKeyboard 16 Scan.I
  |>.setKeyboard 17 Scan.O
  |>.setKeyboard 18 Scan.Num0
  |>.setKeyboard 19 Scan.P
  |>.setKeyboard 20 Scan.Hyphen
  |>.setKeyboard 21 Scan.LBracket
  |>.setKeyboard 22 Scan.Equal
  |>.setKeyboard 23 Scan.RBracket
  |>.setKeyboard 24 Scan.Backslash

/-- The constructor `Piano::Piano()`.  `entries` is what the directory iterator
over `Sounds` yields, `mem` the storage content before construction. -/
def Piano.construct {P : Type} [PitchArith P] (entries : List FsPath) (loadFromFile : FsPath → Bool)
    (mem : Piano P) : Except Fault (Piano P) :=
  match Piano.LoadSound loadFromFile (Piano.collectPaths entries (Piano.initial mem)) with
  | .error e => .error e
  | .ok p2 => .ok (Piano.bindKeys (Piano.SetPitch p2))

/-- The call `notes[i].sound.play()`. -/
def Piano.play {P : Type} (p : Piano P) (i : Fin 25) : Piano P :=
  { p with notes := Function.update p.notes i { p.notes i with plays := (p.notes i).plays + 1 } }

/-- The loop of `Piano::PlaySounds` over the remaining note indices: the first
note bound to `keyboard` is played and its index returned; `-1` when none is. -/
def Piano.playLoop {P : Type} (p : Piano P) (keyboard : Scan) : List (Fin 25) → Piano P × Int
  | [] => (p, -1)
  | i :: rest =>
    if keyboard = (p.notes i).keyboard then (Piano.play p i, (i.val : Int))
    else Piano.playLoop p keyboard rest

/-- The method `Piano::PlaySounds(keyboard)`: new state and returned index. -/
def Piano.PlaySounds {P : Type} (p : Piano P) (keyboard : Scan) : Piano P × Int :=
  Piano.playLoop p keyboard (List.finRange 25)

/-- The method `Piano::ChangeSound(keyboard)`. -/
def Piano.ChangeSound {P : Type} [PitchArith P] (loadFromFile : FsPath → Bool) (p : Piano P)
    (keyboard : Scan) : Except Fault (Piano P) :=
  if keyboard = Scan.Up then Piano.LoadSound loadFromFile { p with current := p.current - 1 }
  else if keyboard = Scan.Down then Piano.LoadSound loadFromFile { p with current := p.current + 1 }
  else if keyboard = Scan.Left then .ok (Piano.SetPitch { p with transpose := p.transpose - 1 })
  else if keyboard = Scan.Right then .ok (Piano.SetPitch { p with transpose := p.transpose + 1 })
  else .ok p

/-- A sequence of `ChangeSound` calls, stopping at the first fault. -/
def Piano.changeAll {P : Type} [PitchArith P] (loadFromFile : FsPath → Bool) (p : Piano P) :
    List Scan → Except Fault (Piano P)
  | [] => .ok p
  | key :: rest =>
    match Piano.ChangeSound loadFromFile p key with
    | .ok p1 => Piano.changeAll loadFromFile p1 rest
    | .error e => .error e

/-- The key-press branch of the event loop in `main`: play and shoot, then change sound. -/
def keyPressed {P F : Type} [PitchArith P] [FloatArith F] (loadFromFile : FsPath → Bool)
    (piano : Piano P) (shooter : Shooter F) (scancode : Scan) :
    Except Fault (Piano P × Shooter F) :=
  let played := Piano.PlaySounds piano scancode
  match Shooter.Shoot shooter played.2 with
  | .error e => .error e
  | .ok shooter1 =>
    match Piano.ChangeSound loadFromFile played.1 scancode with
    | .error e => .error e
    | .ok piano1 => .ok (piano1, shooter1)

/-- What the window loop of `main` reacts to: a key press, or a frame that is due after
`dt` seconds (close and resize events touch neither object). -/
inductive Event (F : Type) where
  | key (scancode : Scan)
  | frame (dt : F)

/-- One round of the window loop of `main`: a key press goes to `keyPressed`, a frame calls
`shooter.Update(dt)` with the default range `2000.f`. -/
def handleEvent {P F : Type} [PitchArith P] [FloatArith F] (loadFromFile : FsPath → Bool)
    (st : Piano P × Shooter F) : Event F → Except Fault (Piano P × Shooter F)
  | .key scancode => keyPressed loadFromFile st.1 st.2 scancode
  | .frame dt => .ok (st.1, st.2.Update dt (FloatArith.ofInt 2000))

/-- The window loop of `main` over a sequence of events, stopping at the first fault. -/
def runEvents {P F : Type} [PitchArith P] [FloatArith F] (loadFromFile : FsPath → Bool)
    (st : Piano P × Shooter F) : List (Event F) → Except Fault (Piano P × Shooter F)
  | [] => .ok st
  | ev :: rest =>
    match handleEvent loadFromFile st ev with
    | .ok st1 => runEvents loadFromFile st1 rest
    | .error e => .error e

/-- The function `main`: create the piano, create the shooter, then run the window loop. -/
def program {P F : Type} [PitchArith P] [FloatArith F] (entries : List FsPath)
    (loadFromFile : FsPath → Bool) (pianoMem : Piano P) (shooterMem : Shooter F)
    (events : List (Event F)) : Except Fault (Piano P × Shooter F) :=
  match Piano.construct entries loadFromFile pianoMem with
  | .error e => .error e
  | .ok piano => runEvents loadFromFile (piano, Shooter.construct shooterMem) events

/-- The piano from its construction through a sequence of `ChangeSound` calls. -/
def Piano.run {P : Type} [PitchArith P] (entries : List FsPath) (loadFromFile : FsPath → Bool)
    (mem : Piano P) (keys : List Scan) : Except Fault (Piano P) :=
  match Piano.construct entries loadFromFile mem with
  | .ok p => Piano.changeAll loadFromFile p keys
  | .error e => .error e

/-- The state in which file `f`, found at index `k` of the list, is the current sample. -/
def Piano.withSample {P : Type} (p : Piano P) (k : Nat) (f : FsPath) : Piano P :=
  { p with current := (k : Int), buffer := some f }

/-- The `.mp3` files among the directory entries, in enumeration order. -/
def soundFiles (entries : List FsPath) : List FsPath :=
  entries.filter (fun entry => entry.extension = ".mp3")

/-- The key bindings in note order, as a table. -/
def noteKeys : Fin 25 → Scan :=
  ![Scan.LShift, Scan.Grave, Scan.Tab, Scan.Num1, Scan.Q, Scan.W, Scan.Num3, Scan.E, Scan.Num4,
    Scan.R, Scan.Num5, Scan.T, Scan.Y, Scan.Num7, Scan.U, Scan.Num8, Scan.I, Scan.O, Scan.Num0,
    Scan.P, Scan.Hyphen, Scan.LBracket, Scan.Equal, Scan.RBracket, Scan.Backslash]

/-- Storage content used for examples: every key binding reads `other 0`. -/
def blankPiano : Piano PitchTerm :=
  { notes := fun _ => { pitch := PitchTerm.lit 0, plays := 0, keyboard := Scan.other 0 }
    transpose := 0
    paths := []
    current := 0
    buffer := none }

/-- A directory listing used for examples: two sound files and a text file. -/
def sampleEntries : List FsPath :=
  [{ stem := "grand", extension := ".mp3" }, { stem := "notes", extension := ".txt" },
   { stem := "organ", extension := ".mp3" }]

/-- The piano constructed from `sampleEntries` when every file decodes. -/
def samplePiano : Piano PitchTerm :=
  match Piano.construct sampleEntries (fun _ => true) blankPiano with
  | .ok p => p
  | .error _ => blankPiano

/-- The sample piano after the key Y has been pressed once and the key Left twice. -/
def playedPiano : Piano PitchTerm :=
  match Piano.changeAll (fun _ => true) (samplePiano.PlaySounds Scan.Y).1 [Scan.Left, Scan.Left] with
  | .ok p => p
  | .error _ => blankPiano

/-- A shooter with one shot in flight: constructed on zeroed storage, then `Shoot(12)`. -/
def firedShooter : Shooter ℚ :=
  match (Shooter.construct zeroStorage).Shoot 12 with
  | .ok s => s
  | .error _ => zeroStorage

/-- Natural notes, in the specification's words: the semitone `i mod 12` is none of 1, 3, 6, 8, 10. -/
def isNaturalNote (i : Nat) : Bool :=
  decide (i % 12 ≠ 1 ∧ i % 12 ≠ 3 ∧ i % 12 ≠ 6 ∧ i % 12 ≠ 8 ∧ i % 12 ≠ 10)

/-- Number of natural notes strictly below note `i`. -/
def naturalsBelow (i : Nat) : Nat :=
  ((List.range i).filter isNaturalNote).length

/-- Forty-one valid note indices used for examples: 0, 1, ..., 24, 0, 1, ..., 15. -/
def sampleNotes : List Int :=
  (List.range 41).map (fun k => ((k % 25 : Nat) : Int))

/-! ## Shooter: basic facts -/

theorem subscript_natCast {n : Nat} (c : Fin n) : subscript n (c.val : Int) = some c := by
  unfold subscript
  have h : 0 ≤ (c.val : Int) ∧ (c.val : Int) < n := ⟨by omega, by exact_mod_cast c.isLt⟩
  rw [dif_pos h]
  simp

theorem Shooter.Shoot_of_invalid {F : Type} [FloatArith F] (s : Shooter F) (index : Int)
    (h : index < 0 ∨ index ≥ 25) : s.Shoot index = .ok s := by
  unfold Shooter.Shoot
  rw [if_pos h]

theorem Shooter.Shoot_of_valid {F : Type} [FloatArith F] (s : Shooter F) (c : Fin Shooter.n)
    (index : Int) (hc : s.current = (c.val : Int)) (h0 : 0 ≤ index) (h1 : index < 25) :
    s.Shoot index = .ok
      { current := if c.val + 1 = Shooter.n then 0 else (c.val : Int) + 1
        shots := Function.update s.shots c
          { active := true, x := FloatArith.ofInt 0, index := index }
        velocity := s.velocity
        map := s.map } := by
  unfold Shooter.Shoot
  have hn : ¬ (index < 0 ∨ index ≥ 25) := by omega
  rw [if_neg hn, hc, subscript_natCast]
  have hlt := c.isLt
  simp only [Function.update_same, Function.update_idem, hc]
  by_cases hw : c.val + 1 = Shooter.n
  · have hge : ((c.val : Int) + 1 ≥ (Shooter.n : Int)) := by omega
    rw [if_pos hge, if_pos hw]
  · have hge : ¬ ((c.val : Int) + 1 ≥ (Shooter.n : Int)) := by omega
    rw [if_neg hge, if_neg hw]

theorem Shooter.updateStep_eq {F : Type} [FloatArith F] (dt range : F) (s : Shooter F)
    (i : Fin Shooter.n) :
    Shooter.updateStep dt range s i =
      { s with shots := Function.update s.shots i (Shooter.Shot.advance s.velocity dt range (s.shots i)) } := by
  unfold Shooter.updateStep Shooter.Shot.advance
  cases ha : (s.shots i).active
  · simp
  · cases hg : FloatArith.gt (FloatArith.add (s.shots i).x (FloatArith.mul s.velocity dt)) range
    · simp [hg, ha]
    · simp [hg]

theorem Shooter.foldl_updateStep {F : Type} [FloatArith F] (dt range : F)
    (l : List (Fin Shooter.n)) (hl : l.Nodup) (s : Shooter F) :
    l.foldl (Shooter.updateStep dt range) s =
      { s with shots := fun j =>
          if j ∈ l then Shooter.Shot.advance s.velocity dt range (s.shots j) else s.shots j } := by
  induction l generalizing s with
  | nil => simp
  | cons i rest ih =>
    rw [List.foldl_cons, ih (List.nodup_cons.mp hl).2, Shooter.updateStep_eq]
    have hi : i ∉ rest := (List.nodup_cons.mp hl).1
    congr 1
    funext j
    by_cases hji : j = i
    · subst hji
      simp [hi]
    · by_cases hjr : j ∈ rest
      · simp [hji, hjr, Function.update_noteq hji]
      · simp [hji, hjr, Function.update_noteq hji]

theorem Shooter.Update_eq {F : Type} [FloatArith F] (s : Shooter F) (dt range : F) :
    s.Update dt range =
      { s with shots := fun j => Shooter.Shot.advance s.velocity dt range (s.shots j) } := by
  unfold Shooter.Update
  rw [Shooter.foldl_updateStep dt range _ (List.nodup_finRange _)]
  simp [List.mem_finRange]

theorem Shooter.foldl_mapStep (l : List (Fin 25)) (c : Int) (m : Fin 25 → Int) :
    l.foldl Shooter.mapStep (c, m) =
      ((l.foldl Shooter.mapStep (c, fun _ => 0)).1,
        fun i => if i ∈ l then (l.foldl Shooter.mapStep (c, fun _ => 0)).2 i else m i) := by
  induction l generalizing c m with
  | nil => simp
  | cons a rest ih =>
    have h1 : Shooter.mapStep (c, m) a
        = ((Shooter.mapStep (c, fun _ => 0) a).1,
            Function.update m a (Shooter.mapStep (c, fun _ => 0) a).1) := rfl
    have h2 : Shooter.mapStep (c, fun _ => 0) a
        = ((Shooter.mapStep (c, fun _ => 0) a).1,
            Function.update (fun _ => 0) a (Shooter.mapStep (c, fun _ => 0) a).1) := rfl
    generalize (Shooter.mapStep (c, fun _ => 0) a).1 = d at h1 h2
    simp only [List.foldl_cons]
    rw [h1, h2, ih d (Function.update m a d)]
    conv_rhs => rw [ih d (Function.update (fun _ => 0) a d)]
    simp only [Prod.mk.injEq, true_and]
    funext i
    by_cases hr : i ∈ rest
    · simp [hr]
    · by_cases hia : i = a
      · subst hia
        simp [hr]
      · simp [hr, hia, Function.update_noteq hia]

theorem Shooter.construct_map {F : Type} [FloatArith F] (mem : Shooter F) :
    (Shooter.construct mem).map =
      ((List.finRange 25).foldl Shooter.mapStep (-1, fun _ => 0)).2 := by
  unfold Shooter.construct
  simp only
  rw [Shooter.foldl_mapStep]
  simp [List.mem_finRange]

set_option maxRecDepth 100000 in
theorem Shooter.mapTable_spec :
    let m := ((List.finRange 25).foldl Shooter.mapStep (-1, fun _ => 0)).2
    (∀ i : Fin 25, isNaturalNote i.val = true → m i = (naturalsBelow i.val : Int)) ∧
    ((List.finRange 25).filter (fun i => isNaturalNote i.val)).map m
      = (List.range 15).map (fun k => (k : Int)) ∧
    m 0 = 0 ∧ m 24 = 14 ∧
    (∀ i : Fin 25, isNaturalNote i.val = false →
      ∃ j : Fin 25, j.val + 1 = i.val ∧ isNaturalNote j.val = true ∧ m i = m j) := by
  decide

theorem Shooter.shootAll_append {F : Type} [FloatArith F] (s : Shooter F) (a b : List Int) :
    s.shootAll (a ++ b) =
      (match s.shootAll a with
       | .ok t => t.shootAll b
       | .error e => .error e) := by
  induction a generalizing s with
  | nil => simp [Shooter.shootAll]
  | cons i rest ih =>
    simp only [List.cons_append, Shooter.shootAll]
    cases s.Shoot i with
    | ok t => simp [ih]
    | error e => simp

/-- Shooting valid notes without reaching the end of the pool fills the slots
`c, c+1, ...` in order and moves the cursor behind them. -/
theorem Shooter.shootAll_fill {F : Type} [FloatArith F] (l : List Int) (s : Shooter F) (c : Nat)
    (hc : s.current = (c : Int)) (hroom : c + l.length < Shooter.n)
    (hval : ∀ i ∈ l, 0 ≤ i ∧ i < 25) :
    ∃ t, s.shootAll l = .ok t ∧ t.current = ((c + l.length : Nat) : Int) ∧
      t.velocity = s.velocity ∧ t.map = s.map ∧
      ∀ j : Fin Shooter.n, t.shots j =
        if c ≤ j.val ∧ j.val < c + l.length then
          { active := true, x := FloatArith.ofInt 0, index := l.getD (j.val - c) 0 }
        else s.shots j := by
  induction l generalizing s c with
  | nil =>
    refine ⟨s, rfl, by simpa using hc, rfl, rfl, ?_⟩
    intro j
    have hno : ¬ (c ≤ j.val ∧ j.val < c + ([] : List Int).length) := by
      simp only [List.length_nil]
      omega
    rw [if_neg hno]
  | cons i rest ih =>
    simp only [List.length_cons] at hroom
    have hi := hval i (List.mem_cons_self i rest)
    have hstep := Shooter.Shoot_of_valid s ⟨c, by omega⟩ i hc hi.1 hi.2
    have hne : ¬ (c + 1 = Shooter.n) := by omega
    simp only [if_neg hne] at hstep
    obtain ⟨s1, hs1, hc1, hv1, hm1, hsh1⟩ : ∃ s1 : Shooter F, s.Shoot i = .ok s1 ∧
        s1.current = ((c + 1 : Nat) : Int) ∧ s1.velocity = s.velocity ∧ s1.map = s.map ∧
        s1.shots = Function.update s.shots ⟨c, by omega⟩
          { active := true, x := FloatArith.ofInt 0, index := i } :=
      ⟨_, hstep, by simp, rfl, rfl, rfl⟩
    obtain ⟨t, ht, hcur, hvel, hmap, hshots⟩ :=
      ih s1 (c + 1) hc1 (by omega) (fun k hk => hval k (List.mem_cons_of_mem i hk))
    refine ⟨t, ?_, ?_, hvel.trans hv1, hmap.trans hm1, ?_⟩
    · simp only [Shooter.shootAll, hs1]
      exact ht
    · rw [hcur]
      simp only [List.length_cons]
      push_cast
      omega
    · intro j
      rw [hshots j, hsh1]
      by_cases hjc : j.val = c
      · have h1 : ¬ (c + 1 ≤ j.val ∧ j.val < c + 1 + rest.length) := by omega
        have h2 : c ≤ j.val ∧ j.val < c + (i :: rest).length := by
          simp only [List.length_cons]
          omega
        have hj : j = ⟨c, by omega⟩ := Fin.ext hjc
        rw [if_neg h1, if_pos h2, hj]
        simp
      · have hj : j ≠ ⟨c, by omega⟩ := fun h => hjc (by rw [h])
        by_cases hin : c + 1 ≤ j.val ∧ j.val < c + 1 + rest.length
        · have h2 : c ≤ j.val ∧ j.val < c + (i :: rest).length := by
            simp only [List.length_cons]
            omega
          rw [if_pos hin, if_pos h2]
          have hsub : j.val - c = (j.val - (c + 1)) + 1 := by omega
          rw [hsub]
          simp
        · have h2 : ¬ (c ≤ j.val ∧ j.val < c + (i :: rest).length) := by
            simp only [List.length_cons]
            omega
          rw [if_neg hin, if_neg h2]
          simp [Function.update_noteq hj]

theorem Shooter.activeCount_of_all {F : Type} (s : Shooter F)
    (h : ∀ j, (s.shots j).active = true) : s.activeCount = 40 := by
  unfold Shooter.activeCount
  have hall : (List.finRange Shooter.n).filter (fun i => (s.shots i).active)
      = List.finRange Shooter.n := by
    rw [List.filter_eq_self]
    intro a _
    exact h a
  rw [hall]
  simp

/-- Forty-one valid shots from a cursor at 0: every slot ends up active and slot 0
holds the last shot. -/
theorem Shooter.shootAll_fortyOne {F : Type} [FloatArith F] (s : Shooter F) (l : List Int)
    (hc : s.current = 0) (hlen : l.length = 41) (hval : ∀ i ∈ l, 0 ≤ i ∧ i < 25) :
    ∃ t, s.shootAll l = .ok t ∧ (∀ j, (t.shots j).active = true) ∧
      t.shots 0 = { active := true, x := FloatArith.ofInt 0, index := l.getD 40 0 } ∧
      t.current = 1 := by
  have hsplit : l = l.take 39 ++ l.drop 39 := (List.take_append_drop 39 l).symm
  have hdlen : (l.drop 39).length = 2 := by simp [hlen]
  obtain ⟨a, b, hab⟩ : ∃ a b, l.drop 39 = [a, b] := by
    rcases hd : l.drop 39 with _ | ⟨a, _ | ⟨b, _ | ⟨c, r⟩⟩⟩
    · rw [hd] at hdlen; simp at hdlen
    · rw [hd] at hdlen; simp at hdlen
    · exact ⟨a, b, rfl⟩
    · rw [hd] at hdlen; simp at hdlen
  have hb : l.getD 40 0 = b := by
    have h1 : (l.drop 39)[1]? = some b := by rw [hab]; rfl
    rw [List.getElem?_drop] at h1
    simp only [List.getD_eq_getElem?_getD]
    have : 39 + 1 = 40 := rfl
    rw [this] at h1
    rw [h1]
    rfl
  have hmem : ∀ k ∈ l.drop 39, k ∈ l := fun k hk => List.mem_of_mem_drop hk
  have ha := hval a (hmem a (by rw [hab]; simp))
  have hbv := hval b (hmem b (by rw [hab]; simp))
  have htlen : (l.take 39).length = 39 := by simp [hlen]
  obtain ⟨t1, ht1, hcur1, -, -, hshots1⟩ :=
    Shooter.shootAll_fill (l.take 39) s 0 (by simpa using hc) (by rw [htlen]; decide)
      (fun k hk => hval k (List.mem_of_mem_take hk))
  rw [htlen] at hcur1 hshots1
  obtain ⟨t2, ht2, hcur2, hshots2⟩ : ∃ t2 : Shooter F, t1.Shoot a = .ok t2 ∧ t2.current = 0 ∧
      t2.shots = Function.update t1.shots ⟨39, by decide⟩
        { active := true, x := FloatArith.ofInt 0, index := a } :=
    ⟨_, Shooter.Shoot_of_valid t1 ⟨39, by decide⟩ a (by simpa using hcur1) ha.1 ha.2, rfl, rfl⟩
  obtain ⟨t3, ht3, hcur3, hshots3⟩ : ∃ t3 : Shooter F, t2.Shoot b = .ok t3 ∧ t3.current = 1 ∧
      t3.shots = Function.update t2.shots ⟨0, by decide⟩
        { active := true, x := FloatArith.ofInt 0, index := b } :=
    ⟨_, Shooter.Shoot_of_valid t2 ⟨0, by decide⟩ b (by simpa using hcur2) hbv.1 hbv.2, rfl, rfl⟩
  refine ⟨t3, ?_, ?_, ?_, hcur3⟩
  · rw [hsplit, Shooter.shootAll_append, ht1, hab]
    simp only [Shooter.shootAll, ht2, ht3]
  · intro j
    rw [hshots3, hshots2]
    by_cases hj0 : j = ⟨0, by decide⟩
    · rw [hj0]; simp
    · rw [Function.update_noteq hj0]
      by_cases hj39 : j = ⟨39, by decide⟩
      · rw [hj39]; simp
      · rw [Function.update_noteq hj39, hshots1 j]
        have hlt : 0 ≤ j.val ∧ j.val < 0 + 39 := by
          have hjn : j.val < 40 := j.isLt
          have h39 : j.val ≠ 39 := fun h => hj39 (Fin.ext h)
          omega
        rw [if_pos hlt]
  · rw [hshots3, hb]
    exact Function.update_same _ _ _

theorem firedShooter_eq :
    firedShooter =
      { current := 1
        shots := Function.update (Shooter.construct zeroStorage).shots 0
          { active := true, x := 0, index := 12 }
        velocity := 200
        map := (Shooter.construct zeroStorage).map } := by
  have h := Shooter.Shoot_of_valid (Shooter.construct zeroStorage) ⟨0, by decide⟩ 12 rfl
    (by decide) (by decide)
  unfold firedShooter
  rw [h]
  simp [Shooter.construct, FloatArith.ofInt]

/-! ## Shooter: the claims -/

/-- C1 (as stated, refuted): on a freshly constructed shooter, `Shoot(12)` followed by
`Update(10, 2000)` leaves the shot in slot 0 active, because its distance 2000 is
not greater than the range 2000. -/
theorem Shooter.shot_at_range_not_deactivated :
    ∃ t, (Shooter.construct zeroStorage).Shoot 12 = .ok t ∧
      ((t.Update 10 2000).shots 0).x = 2000 ∧
      ¬ ((t.Update 10 2000).shots 0).active = false := by
  refine ⟨_, Shooter.Shoot_of_valid (Shooter.construct zeroStorage) ⟨0, by decide⟩ 12 rfl
    (by decide) (by decide), ?_, ?_⟩
  · rw [Shooter.Update_eq]
    simp [Shooter.Shot.advance, Shooter.construct, FloatArith.add, FloatArith.mul,
      FloatArith.ofInt]
    norm_num
  · rw [Shooter.Update_eq]
    simp [Shooter.Shot.advance, Shooter.construct, FloatArith.add, FloatArith.mul,
      FloatArith.ofInt, FloatArith.gt]
    norm_num

/-- C1 (amended): on a freshly constructed shooter, whatever the storage held before
construction, after `Shoot(12)` and `Update(10, 2000)` with velocity 200 the shot in slot 0
has distance exactly 2000, note index 12 and is still active, since 2000 is not greater
than the range; with the same step and a range of 1999 it is deactivated. -/
theorem Shooter.shot_at_range_stays_active (mem : Shooter ℚ) :
    ∃ t, (Shooter.construct mem).Shoot 12 = .ok t ∧
      (t.Update 10 2000).shots 0 = { active := true, x := 2000, index := 12 } ∧
      (t.Update 10 1999).shots 0 = { active := false, x := 2000, index := 12 } := by
  refine ⟨_, Shooter.Shoot_of_valid (Shooter.construct mem) ⟨0, by decide⟩ 12 rfl
    (by decide) (by decide), ?_, ?_⟩
  · rw [Shooter.Update_eq]
    simp [Shooter.Shot.advance, Shooter.construct, FloatArith.add, FloatArith.mul,
      FloatArith.ofInt, FloatArith.gt]
    norm_num
  · rw [Shooter.Update_eq]
    simp [Shooter.Shot.advance, Shooter.construct, FloatArith.add, FloatArith.mul,
      FloatArith.ofInt, FloatArith.gt]
    norm_num

/-- C2: for every state and every index below 0 or at least 25, `Shoot` returns the
state it was given: all slots and the write cursor are as before. -/
theorem Shooter.Shoot_invalid_unchanged {F : Type} [FloatArith F] (s : Shooter F) (index : Int)
    (h : index < 0 ∨ index ≥ 25) : s.Shoot index = .ok s :=
  Shooter.Shoot_of_invalid s index h

theorem Shooter.Shoot_invalid_unchanged_witness :
    (((-1 : Int) < 0 ∨ (-1 : Int) ≥ 25) ∧
      (Shooter.construct zeroStorage).Shoot (-1) = .ok (Shooter.construct zeroStorage)) ∧
    (((25 : Int) < 0 ∨ (25 : Int) ≥ 25) ∧
      (Shooter.construct zeroStorage).Shoot 25 = .ok (Shooter.construct zeroStorage)) :=
  ⟨⟨by decide, Shooter.Shoot_invalid_unchanged _ (-1) (by decide)⟩,
   ⟨by decide, Shooter.Shoot_invalid_unchanged _ 25 (by decide)⟩⟩

/-- C3: with the write cursor at `c` in `[0,40)` and a note index `i` in `[0,25)`,
`Shoot(i)` succeeds; afterwards slot `c` is active with distance 0 and note index `i`,
the cursor is `(c + 1) mod 40`, and every other slot is unchanged. -/
theorem Shooter.Shoot_valid_writes_cursor_slot {F : Type} [FloatArith F] (s : Shooter F)
    (c : Fin Shooter.n) (i : Int) (hc : s.current = (c.val : Int)) (hi : 0 ≤ i ∧ i < 25) :
    ∃ t, s.Shoot i = .ok t ∧
      t.shots c = { active := true, x := FloatArith.ofInt 0, index := i } ∧
      t.current = (((c.val + 1) % 40 : Nat) : Int) ∧
      (∀ j, j ≠ c → t.shots j = s.shots j) ∧
      t.velocity = s.velocity ∧ t.map = s.map := by
  refine ⟨_, Shooter.Shoot_of_valid s c i hc hi.1 hi.2, ?_, ?_, ?_, rfl, rfl⟩
  · simp
  · have hlt : c.val < 40 := c.isLt
    by_cases hw : c.val + 1 = 40
    · have hw2 : c.val + 1 = Shooter.n := hw
      simp only [if_pos hw2, hw]
      rfl
    · have hw2 : ¬ (c.val + 1 = Shooter.n) := hw
      simp only [if_neg hw2]
      have hm : (c.val + 1) % 40 = c.val + 1 := Nat.mod_eq_of_lt (by omega)
      rw [hm]
      push_cast
      rfl
  · intro j hj
    simp [Function.update_noteq hj]

theorem Shooter.Shoot_valid_writes_cursor_slot_witness :
    ((Shooter.construct zeroStorage).current = (((0 : Fin Shooter.n)).val : Int)) ∧
    ((0 : Int) ≤ 12 ∧ (12 : Int) < 25) ∧
    ∃ t, (Shooter.construct zeroStorage).Shoot 12 = .ok t ∧
      t.shots 0 = { active := true, x := FloatArith.ofInt 0, index := 12 } ∧
      t.current = (((((0 : Fin Shooter.n)).val + 1) % 40 : Nat) : Int) ∧
      (∀ j, j ≠ 0 → t.shots j = (Shooter.construct zeroStorage).shots j) ∧
      t.velocity = (Shooter.construct zeroStorage).velocity ∧
      t.map = (Shooter.construct zeroStorage).map :=
  ⟨rfl, by decide,
    Shooter.Shoot_valid_writes_cursor_slot (Shooter.construct zeroStorage) 0 12 rfl (by decide)⟩

/-- C4: starting from a freshly constructed shooter, 41 calls of `Shoot` with valid note
indices all succeed; the first call writes slot 0, and at the end exactly 40 slots are
active and slot 0 holds the 41st shot: its note index and distance 0. -/
theorem Shooter.fortyOne_shots_overwrite_first {F : Type} [FloatArith F] (mem : Shooter F)
    (l : List Int) (hlen : l.length = 41) (hval : ∀ i ∈ l, 0 ≤ i ∧ i < 25) :
    (∃ t1, (Shooter.construct mem).Shoot (l.getD 0 0) = .ok t1 ∧
      t1.shots 0 = { active := true, x := FloatArith.ofInt 0, index := l.getD 0 0 }) ∧
    ∃ t, (Shooter.construct mem).shootAll l = .ok t ∧ t.activeCount = 40 ∧
      t.shots 0 = { active := true, x := FloatArith.ofInt 0, index := l.getD 40 0 } := by
  constructor
  · have h0 : l.getD 0 0 ∈ l := by
      cases l with
      | nil => simp at hlen
      | cons a rest => simp
    have hv := hval _ h0
    exact ⟨_, Shooter.Shoot_of_valid (Shooter.construct mem) ⟨0, by decide⟩ _ rfl hv.1 hv.2,
      by simp⟩
  · obtain ⟨t, ht, hall, hslot, -⟩ :=
      Shooter.shootAll_fortyOne (Shooter.construct mem) l rfl hlen hval
    exact ⟨t, ht, Shooter.activeCount_of_all t hall, hslot⟩

theorem Shooter.fortyOne_shots_overwrite_first_witness :
    sampleNotes.length = 41 ∧ (∀ i ∈ sampleNotes, 0 ≤ i ∧ i < 25) ∧
    (∃ t1, (Shooter.construct zeroStorage).Shoot (sampleNotes.getD 0 0) = .ok t1 ∧
      t1.shots 0 = { active := true, x := FloatArith.ofInt 0, index := sampleNotes.getD 0 0 }) ∧
    ∃ t, (Shooter.construct zeroStorage).shootAll sampleNotes = .ok t ∧ t.activeCount = 40 ∧
      t.shots 0 = { active := true, x := FloatArith.ofInt 0, index := sampleNotes.getD 40 0 } :=
  ⟨by decide, by decide,
    Shooter.fortyOne_shots_overwrite_first zeroStorage sampleNotes (by decide) (by decide)⟩

/-- C5: `Update(dt, range)` with velocity 200 acts slot by slot: an inactive slot is left
entirely unchanged; an active slot gets distance `old + 200 * dt` and stays active exactly
when the new distance is not greater than `range`; no note index and not the write cursor
changes. -/
theorem Shooter.Update_slotwise {F : Type} [FloatArith F] (s : Shooter F) (dt range : F)
    (hv : s.velocity = FloatArith.ofInt 200) :
    (∀ j, (s.shots j).active = false → (s.Update dt range).shots j = s.shots j) ∧
    (∀ j, (s.shots j).active = true →
      ((s.Update dt range).shots j).x
          = FloatArith.add (s.shots j).x (FloatArith.mul (FloatArith.ofInt 200) dt) ∧
      (((s.Update dt range).shots j).active = true ↔
          FloatArith.gt ((s.Update dt range).shots j).x range = false)) ∧
    (∀ j, ((s.Update dt range).shots j).index = (s.shots j).index) ∧
    (s.Update dt range).current = s.current ∧
    (s.Update dt range).velocity = s.velocity ∧ (s.Update dt range).map = s.map := by
  rw [Shooter.Update_eq, hv]
  refine ⟨?_, ?_, ?_, rfl, rfl, rfl⟩
  · intro j hj
    simp [Shooter.Shot.advance, hj]
  · intro j hj
    simp [Shooter.Shot.advance, hj]
  · intro j
    simp only [Shooter.Shot.advance]
    split <;> rfl

theorem Shooter.Update_slotwise_witness :
    firedShooter.velocity = FloatArith.ofInt 200 ∧
    (firedShooter.shots 0).active = true ∧
    ((∀ j, (firedShooter.shots j).active = false →
        (firedShooter.Update 5 2000).shots j = firedShooter.shots j) ∧
    (∀ j, (firedShooter.shots j).active = true →
      ((firedShooter.Update 5 2000).shots j).x
          = FloatArith.add (firedShooter.shots j).x (FloatArith.mul (FloatArith.ofInt 200) 5) ∧
      (((firedShooter.Update 5 2000).shots j).active = true ↔
          FloatArith.gt ((firedShooter.Update 5 2000).shots j).x 2000 = false)) ∧
    (∀ j, ((firedShooter.Update 5 2000).shots j).index = (firedShooter.shots j).index) ∧
    (firedShooter.Update 5 2000).current = firedShooter.current ∧
    (firedShooter.Update 5 2000).velocity = firedShooter.velocity ∧
    (firedShooter.Update 5 2000).map = firedShooter.map) ∧
    (firedShooter.Update 5 2000).shots 0 = { active := true, x := 1000, index := 12 } ∧
    (firedShooter.Update 10 1999).shots 0 = { active := false, x := 2000, index := 12 } :=
  ⟨by decide, by decide, Shooter.Update_slotwise firedShooter 5 2000 (by decide),
    by
      rw [Shooter.Update_eq, firedShooter_eq]
      simp [Shooter.Shot.advance, FloatArith.add, FloatArith.mul, FloatArith.gt]
      norm_num,
    by
      rw [Shooter.Update_eq, firedShooter_eq]
      simp [Shooter.Shot.advance, FloatArith.add, FloatArith.mul, FloatArith.gt]
      norm_num⟩

/-- C9: the row map built by the constructor gives every natural note the number of
natural notes strictly below it, so the 15 natural notes get the rows 0, 1, ..., 14 in
order (`map[0] = 0`, `map[24] = 14`), and gives every sharp or flat note the row of the
note just before it, which is a natural note. -/
theorem Shooter.construct_map_rows {F : Type} [FloatArith F] (mem : Shooter F) :
    (∀ i : Fin 25, isNaturalNote i.val = true →
      (Shooter.construct mem).map i = (naturalsBelow i.val : Int)) ∧
    ((List.finRange 25).filter (fun i => isNaturalNote i.val)).map (Shooter.construct mem).map
      = (List.range 15).map (fun k => (k : Int)) ∧
    (Shooter.construct mem).map 0 = 0 ∧ (Shooter.construct mem).map 24 = 14 ∧
    (∀ i : Fin 25, isNaturalNote i.val = false →
      ∃ j : Fin 25, j.val + 1 = i.val ∧ isNaturalNote j.val = true ∧
        (Shooter.construct mem).map i = (Shooter.construct mem).map j) := by
  rw [Shooter.construct_map]
  exact Shooter.mapTable_spec

/-! ## Piano: basic facts -/

/-- The index `LoadSound` settles on: wrap below 0 to the last file, at or above the
number of files to 0. -/
theorem Piano.LoadSound_eq {P : Type} (loadFromFile : FsPath → Bool) (p : Piano P)
    (k : Fin p.paths.length)
    (hk : (if p.current < 0 then (p.paths.length : Int) - 1
           else if p.current ≥ (p.paths.length : Int) then 0 else p.current) = (k.val : Int)) :
    Piano.LoadSound loadFromFile p =
      if loadFromFile (p.paths.get k) then
        .ok { p with current := (k.val : Int), buffer := some (p.paths.get k) }
      else .error (Fault.runtimeError "Can't load sound file") := by
  unfold Piano.LoadSound
  simp only [hk, subscript_natCast]
  cases loadFromFile (p.paths.get k) <;> simp

theorem Piano.wrapped_index_inBounds {P : Type} (p : Piano P) (h : 0 < p.paths.length) :
    ∃ k : Fin p.paths.length,
      (if p.current < 0 then (p.paths.length : Int) - 1
       else if p.current ≥ (p.paths.length : Int) then 0 else p.current) = (k.val : Int) := by
  by_cases h1 : p.current < 0
  · exact ⟨⟨p.paths.length - 1, by omega⟩, by rw [if_pos h1]; simp only; omega⟩
  · by_cases h2 : p.current ≥ (p.paths.length : Int)
    · exact ⟨⟨0, h⟩, by rw [if_neg h1, if_pos h2]; rfl⟩
    · exact ⟨⟨p.current.toNat, by omega⟩, by rw [if_neg h1, if_neg h2]; simp only; omega⟩

/-- With at least one file, `LoadSound` either succeeds with an index inside the list and
the list unchanged, or throws the runtime error; the subscript is never out of bounds. -/
theorem Piano.LoadSound_cases {P : Type} (loadFromFile : FsPath → Bool) (p : Piano P)
    (h : 0 < p.paths.length) :
    (∃ q, Piano.LoadSound loadFromFile p = .ok q ∧ q.paths = p.paths ∧ q.notes = p.notes ∧
        q.transpose = p.transpose ∧ 0 ≤ q.current ∧ q.current < (q.paths.length : Int)) ∨
    (Piano.LoadSound loadFromFile p = .error (Fault.runtimeError "Can't load sound file") ∧
      ∃ f ∈ p.paths, loadFromFile f = false) := by
  obtain ⟨k, hk⟩ := Piano.wrapped_index_inBounds p h
  rw [Piano.LoadSound_eq loadFromFile p k hk]
  cases hl : loadFromFile (p.paths.get k)
  · right
    exact ⟨by simp, p.paths.get k, List.get_mem _ _ _, hl⟩
  · left
    refine ⟨{ p with current := (k.val : Int), buffer := some (p.paths.get k) },
      by simp, rfl, rfl, rfl, ?_, ?_⟩
    · show (0 : Int) ≤ (k.val : Int)
      omega
    · show (k.val : Int) < (p.paths.length : Int)
      exact_mod_cast k.isLt

theorem Piano.foldl_pitchStep {P : Type} [PitchArith P] (l : List (Fin 25)) (hl : l.Nodup)
    (p : Piano P) :
    l.foldl Piano.pitchStep p =
      { p with notes := fun i =>
          if i ∈ l then { p.notes i with pitch := Piano.pitchRatio p.transpose i }
          else p.notes i } := by
  induction l generalizing p with
  | nil => simp
  | cons a rest ih =>
    rw [List.foldl_cons, ih (List.nodup_cons.mp hl).2]
    have ha : a ∉ rest := (List.nodup_cons.mp hl).1
    unfold Piano.pitchStep
    simp only
    congr 1
    funext i
    by_cases hia : i = a
    · subst hia
      simp [ha]
    · by_cases hir : i ∈ rest
      · simp [hia, hir, Function.update_noteq hia]
      · simp [hia, hir, Function.update_noteq hia]

theorem Piano.SetPitch_eq {P : Type} [PitchArith P] (p : Piano P) :
    Piano.SetPitch p =
      { p with notes := fun i => { p.notes i with pitch := Piano.pitchRatio p.transpose i } } := by
  unfold Piano.SetPitch
  rw [Piano.foldl_pitchStep _ (List.nodup_finRange _)]
  simp [List.mem_finRange]

theorem Piano.setKeyboard_keyboard {P : Type} (p : Piano P) (i j : Fin 25) (key : Scan) :
    ((p.setKeyboard i key).notes j).keyboard = if j = i then key else (p.notes j).keyboard := by
  unfold Piano.setKeyboard
  by_cases h : j = i
  · subst h
    simp
  · simp [h, Function.update_noteq h]

theorem Piano.setKeyboard_fields {P : Type} (p : Piano P) (i : Fin 25) (key : Scan) :
    (p.setKeyboard i key).paths = p.paths ∧ (p.setKeyboard i key).current = p.current ∧
    (p.setKeyboard i key).transpose = p.transpose ∧ (p.setKeyboard i key).buffer = p.buffer :=
  ⟨rfl, rfl, rfl, rfl⟩

theorem Piano.collectPaths_eq {P : Type} (entries : List FsPath) (q : Piano P) :
    Piano.collectPaths entries q = { q with paths := q.paths ++ soundFiles entries } := by
  unfold Piano.collectPaths soundFiles
  induction entries generalizing q with
  | nil => simp
  | cons e rest ih =>
    rw [List.foldl_cons, ih]
    by_cases he : e.extension = ".mp3"
    · simp [he, List.filter_cons]
    · simp [he, List.filter_cons]

theorem Piano.setKeyboard_pitch {P : Type} (p : Piano P) (i j : Fin 25) (key : Scan) :
    ((p.setKeyboard i key).notes j).pitch = (p.notes j).pitch ∧
    ((p.setKeyboard i key).notes j).plays = (p.notes j).plays := by
  unfold Piano.setKeyboard
  by_cases h : j = i
  · subst h
    simp
  · simp [Function.update_noteq h]

theorem Piano.bindKeys_fields {P : Type} (p : Piano P) :
    (Piano.bindKeys p).paths = p.paths ∧ (Piano.bindKeys p).current = p.current ∧
    (Piano.bindKeys p).transpose = p.transpose ∧ (Piano.bindKeys p).buffer = p.buffer ∧
    (∀ i, ((Piano.bindKeys p).notes i).pitch = (p.notes i).pitch) ∧
    (∀ i, ((Piano.bindKeys p).notes i).plays = (p.notes i).plays) :=
  ⟨rfl, rfl, rfl, rfl,
    fun i => by
      unfold Piano.bindKeys
      simp only [Piano.setKeyboard_pitch],
    fun i => by
      unfold Piano.bindKeys
      simp only [Piano.setKeyboard_pitch]⟩

theorem Piano.bindKeys_keyboard {P : Type} (p : Piano P) (i : Fin 25) :
    ((Piano.bindKeys p).notes i).keyboard = noteKeys i := by
  unfold Piano.bindKeys
  simp only [Piano.setKeyboard_keyboard]
  fin_cases i <;> rfl

theorem Piano.SetPitch_fields {P : Type} [PitchArith P] (p : Piano P) :
    (Piano.SetPitch p).paths = p.paths ∧ (Piano.SetPitch p).current = p.current ∧
    (Piano.SetPitch p).transpose = p.transpose ∧ (Piano.SetPitch p).buffer = p.buffer ∧
    (∀ i, ((Piano.SetPitch p).notes i).keyboard = (p.notes i).keyboard) ∧
    (∀ i, ((Piano.SetPitch p).notes i).pitch = Piano.pitchRatio p.transpose i) := by
  rw [Piano.SetPitch_eq]
  exact ⟨rfl, rfl, rfl, rfl, fun _ => rfl, fun _ => rfl⟩

/-- What the constructor returns when the list of sound files is not empty. -/
theorem Piano.construct_cases {P : Type} [PitchArith P] (entries : List FsPath)
    (loadFromFile : FsPath → Bool) (mem : Piano P) (h : 0 < (soundFiles entries).length) :
    (∃ p, Piano.construct entries loadFromFile mem = .ok p ∧ p.paths = soundFiles entries ∧
        0 ≤ p.current ∧ p.current < (p.paths.length : Int) ∧
        p.current = (if (4 : Int) < ((soundFiles entries).length : Int) then 4 else 0) ∧
        p.transpose = 0 ∧ (∀ i, (p.notes i).keyboard = noteKeys i) ∧
        (∀ i, (p.notes i).pitch = Piano.pitchRatio 0 i)) ∨
    (Piano.construct entries loadFromFile mem
        = .error (Fault.runtimeError "Can't load sound file") ∧
      ∃ f ∈ soundFiles entries, loadFromFile f = false) := by
  unfold Piano.construct
  rw [Piano.collectPaths_eq]
  generalize hp1 : ({ Piano.initial mem with
    paths := (Piano.initial mem).paths ++ soundFiles entries } : Piano P) = p1
  have hpaths : p1.paths = soundFiles entries := by rw [← hp1]; simp [Piano.initial]
  have htr : p1.transpose = 0 := by rw [← hp1]; rfl
  have hcur : p1.current = 4 := by rw [← hp1]; rfl
  have hl1 : 0 < p1.paths.length := by rw [hpaths]; exact h
  obtain ⟨k, hk⟩ := Piano.wrapped_index_inBounds p1 hl1
  rw [Piano.LoadSound_eq loadFromFile p1 k hk]
  cases hl : loadFromFile (p1.paths.get k)
  · right
    refine ⟨by simp, p1.paths.get k, ?_, hl⟩
    rw [← hpaths]
    exact List.get_mem _ _ _
  · left
    simp only [if_true]
    refine ⟨_, rfl, ?_, ?_, ?_, ?_, ?_, ?_, ?_⟩
    · rw [(Piano.bindKeys_fields _).1, (Piano.SetPitch_fields _).1]
      exact hpaths
    · rw [(Piano.bindKeys_fields _).2.1, (Piano.SetPitch_fields _).2.1]
      show (0 : Int) ≤ (k.val : Int)
      omega
    · rw [(Piano.bindKeys_fields _).2.1, (Piano.SetPitch_fields _).2.1,
        (Piano.bindKeys_fields _).1, (Piano.SetPitch_fields _).1]
      show (k.val : Int) < (p1.paths.length : Int)
      exact_mod_cast k.isLt
    · rw [(Piano.bindKeys_fields _).2.1, (Piano.SetPitch_fields _).2.1]
      show (k.val : Int) = _
      rw [← hk, hcur, hpaths]
      have h40 : ¬ ((4 : Int) < 0) := by decide
      rw [if_neg h40]
      by_cases h4 : (4 : Int) < ((soundFiles entries).length : Int)
      · rw [if_pos h4, if_neg (by omega)]
      · rw [if_neg h4, if_pos (by omega)]
    · rw [(Piano.bindKeys_fields _).2.2.1, (Piano.SetPitch_fields _).2.2.1]
      exact htr
    · intro i
      exact Piano.bindKeys_keyboard _ i
    · intro i
      rw [(Piano.bindKeys_fields _).2.2.2.2.1 i, (Piano.SetPitch_fields _).2.2.2.2.2 i]
      show Piano.pitchRatio p1.transpose i = _
      rw [htr]

theorem Piano.playLoop_of_unbound {P : Type} (p : Piano P) (key : Scan) (l : List (Fin 25))
    (h : ∀ i ∈ l, (p.notes i).keyboard ≠ key) : Piano.playLoop p key l = (p, -1) := by
  induction l with
  | nil => rfl
  | cons a rest ih =>
    have ha : ¬ (key = (p.notes a).keyboard) := fun e => h a (List.mem_cons_self a rest) e.symm
    simp only [Piano.playLoop, if_neg ha]
    exact ih (fun i hi => h i (List.mem_cons_of_mem a hi))

theorem Piano.playLoop_of_first {P : Type} (p : Piano P) (key : Scan) (front back : List (Fin 25))
    (i : Fin 25) (hfront : ∀ j ∈ front, (p.notes j).keyboard ≠ key)
    (hi : (p.notes i).keyboard = key) :
    Piano.playLoop p key (front ++ i :: back) = (Piano.play p i, (i.val : Int)) := by
  induction front with
  | nil => simp [Piano.playLoop, hi]
  | cons a rest ih =>
    have ha : ¬ (key = (p.notes a).keyboard) :=
      fun e => hfront a (List.mem_cons_self a rest) e.symm
    simp only [List.cons_append, Piano.playLoop, if_neg ha]
    exact ih (fun j hj => hfront j (List.mem_cons_of_mem a hj))

/-- A key bound to no note: nothing is played and `-1` is returned. -/
theorem Piano.PlaySounds_of_unbound {P : Type} (p : Piano P) (key : Scan)
    (h : ∀ i, (p.notes i).keyboard ≠ key) : Piano.PlaySounds p key = (p, -1) :=
  Piano.playLoop_of_unbound p key _ (fun i _ => h i)

/-- With pairwise distinct bindings, the key of note `i` plays note `i` and returns `i`. -/
theorem Piano.PlaySounds_of_bound {P : Type} (p : Piano P) (i : Fin 25)
    (hinj : ∀ a b : Fin 25, (p.notes a).keyboard = (p.notes b).keyboard → a = b) :
    Piano.PlaySounds p (p.notes i).keyboard = (Piano.play p i, (i.val : Int)) := by
  obtain ⟨front, back, hsplit⟩ := List.append_of_mem (List.mem_finRange i)
  have hnd : (front ++ i :: back).Nodup := hsplit ▸ List.nodup_finRange 25
  unfold Piano.PlaySounds
  rw [hsplit]
  refine Piano.playLoop_of_first p _ front back i ?_ rfl
  intro j hj hk
  have hji : j = i := hinj j i hk
  subst hji
  have hdis := (List.nodup_append.mp hnd).2.2
  exact hdis hj (List.mem_cons_self j back)

theorem noteKeys_injective : ∀ a b : Fin 25, noteKeys a = noteKeys b → a = b := by
  decide

theorem noteKeys_not_control :
    ∀ i : Fin 25, noteKeys i ≠ Scan.Up ∧ noteKeys i ≠ Scan.Down ∧ noteKeys i ≠ Scan.Left ∧
      noteKeys i ≠ Scan.Right := by
  decide

theorem Piano.ChangeSound_of_other {P : Type} [PitchArith P] (loadFromFile : FsPath → Bool)
    (p : Piano P) (key : Scan) (h1 : key ≠ Scan.Up) (h2 : key ≠ Scan.Down)
    (h3 : key ≠ Scan.Left) (h4 : key ≠ Scan.Right) :
    Piano.ChangeSound loadFromFile p key = .ok p := by
  unfold Piano.ChangeSound
  rw [if_neg h1, if_neg h2, if_neg h3, if_neg h4]

/-- One `ChangeSound` call in a state whose list of files is not empty: it succeeds with
the list unchanged and the index inside it, or it throws the runtime error. -/
theorem Piano.ChangeSound_cases {P : Type} [PitchArith P] (loadFromFile : FsPath → Bool)
    (p : Piano P) (key : Scan) (h0 : 0 ≤ p.current) (h1 : p.current < (p.paths.length : Int)) :
    (∃ q, Piano.ChangeSound loadFromFile p key = .ok q ∧ q.paths = p.paths ∧
        0 ≤ q.current ∧ q.current < (q.paths.length : Int)) ∨
    (Piano.ChangeSound loadFromFile p key = .error (Fault.runtimeError "Can't load sound file") ∧
      ∃ f ∈ p.paths, loadFromFile f = false) := by
  have hlen : 0 < p.paths.length := by omega
  unfold Piano.ChangeSound
  by_cases hu : key = Scan.Up
  · rw [if_pos hu]
    rcases Piano.LoadSound_cases loadFromFile { p with current := p.current - 1 } hlen with
      ⟨q, hq, hp, -, -, hq0, hq1⟩ | ⟨he, hf⟩
    · exact Or.inl ⟨q, hq, hp, hq0, hq1⟩
    · exact Or.inr ⟨he, hf⟩
  · rw [if_neg hu]
    by_cases hd : key = Scan.Down
    · rw [if_pos hd]
      rcases Piano.LoadSound_cases loadFromFile { p with current := p.current + 1 } hlen with
        ⟨q, hq, hp, -, -, hq0, hq1⟩ | ⟨he, hf⟩
      · exact Or.inl ⟨q, hq, hp, hq0, hq1⟩
      · exact Or.inr ⟨he, hf⟩
    · rw [if_neg hd]
      by_cases hl : key = Scan.Left
      · rw [if_pos hl]
        refine Or.inl ⟨_, rfl, ?_, ?_, ?_⟩
        · rw [(Piano.SetPitch_fields _).1]
        · rw [(Piano.SetPitch_fields _).2.1]; exact h0
        · rw [(Piano.SetPitch_fields _).2.1, (Piano.SetPitch_fields _).1]; exact h1
      · rw [if_neg hl]
        by_cases hr : key = Scan.Right
        · rw [if_pos hr]
          refine Or.inl ⟨_, rfl, ?_, ?_, ?_⟩
          · rw [(Piano.SetPitch_fields _).1]
          · rw [(Piano.SetPitch_fields _).2.1]; exact h0
          · rw [(Piano.SetPitch_fields _).2.1, (Piano.SetPitch_fields _).1]; exact h1
        · rw [if_neg hr]
          exact Or.inl ⟨p, rfl, rfl, h0, h1⟩

/-- A sequence of `ChangeSound` calls from a state with the index inside the list: no call
reads outside the list, a final state has the index inside the unchanged list, and the
sequence runs to its end when every file decodes. -/
theorem Piano.changeAll_inBounds {P : Type} [PitchArith P] (loadFromFile : FsPath → Bool)
    (keys : List Scan) (p : Piano P) (h0 : 0 ≤ p.current)
    (h1 : p.current < (p.paths.length : Int)) :
    Piano.changeAll loadFromFile p keys ≠ .error Fault.undefinedBehaviour ∧
    (∀ q, Piano.changeAll loadFromFile p keys = .ok q →
      q.paths = p.paths ∧ 0 ≤ q.current ∧ q.current < (q.paths.length : Int)) ∧
    ((∀ f ∈ p.paths, loadFromFile f = true) → ∃ q, Piano.changeAll loadFromFile p keys = .ok q) := by
  induction keys generalizing p with
  | nil =>
    refine ⟨by simp [Piano.changeAll], ?_, fun _ => ⟨p, rfl⟩⟩
    intro q hq
    simp only [Piano.changeAll, Except.ok.injEq] at hq
    subst hq
    exact ⟨rfl, h0, h1⟩
  | cons key rest ih =>
    rcases Piano.ChangeSound_cases loadFromFile p key h0 h1 with
      ⟨q, hq, hp, hq0, hq1⟩ | ⟨he, f, hf, hbad⟩
    · obtain ⟨ih1, ih2, ih3⟩ := ih q hq0 hq1
      simp only [Piano.changeAll, hq]
      refine ⟨ih1, ?_, ?_⟩
      · intro r hr
        obtain ⟨hr1, hr2, hr3⟩ := ih2 r hr
        exact ⟨hr1.trans hp, hr2, hr3⟩
      · intro hall
        exact ih3 (by rw [hp]; exact hall)
    · simp only [Piano.changeAll, he]
      refine ⟨by simp, ?_, ?_⟩
      · intro r hr
        exact absurd hr (by simp)
      · intro hall
        rw [hall f hf] at hbad
        exact absurd hbad (by simp)

theorem Piano.construct_ok_shape {P : Type} [PitchArith P] (entries : List FsPath)
    (loadFromFile : FsPath → Bool) (mem p : Piano P)
    (h : Piano.construct entries loadFromFile mem = .ok p) :
    ∃ p2, p = Piano.bindKeys (Piano.SetPitch p2) := by
  unfold Piano.construct at h
  cases hl : Piano.LoadSound loadFromFile (Piano.collectPaths entries (Piano.initial mem)) with
  | error e => rw [hl] at h; exact absurd h (by simp)
  | ok p2 =>
    rw [hl] at h
    simp only [Except.ok.injEq] at h
    exact ⟨p2, h.symm⟩

theorem Piano.play_keyboard {P : Type} (p : Piano P) (i j : Fin 25) :
    ((p.play i).notes j).keyboard = (p.notes j).keyboard := by
  unfold Piano.play
  by_cases h : j = i
  · subst h
    simp
  · simp [Function.update_noteq h]

theorem Piano.playLoop_keyboard {P : Type} (p : Piano P) (key : Scan) (l : List (Fin 25))
    (j : Fin 25) : (((Piano.playLoop p key l).1).notes j).keyboard = (p.notes j).keyboard := by
  induction l with
  | nil => rfl
  | cons a rest ih =>
    simp only [Piano.playLoop]
    split
    · exact Piano.play_keyboard p a j
    · exact ih

theorem Piano.PlaySounds_keyboard {P : Type} (p : Piano P) (key : Scan) (j : Fin 25) :
    (((p.PlaySounds key).1).notes j).keyboard = (p.notes j).keyboard :=
  Piano.playLoop_keyboard p key _ j

theorem Piano.LoadSound_notes {P : Type} (loadFromFile : FsPath → Bool) (p q : Piano P)
    (h : Piano.LoadSound loadFromFile p = .ok q) : q.notes = p.notes := by
  unfold Piano.LoadSound at h
  simp only at h
  split at h
  · exact absurd h (by simp)
  · split at h
    · exact absurd h (by simp)
    · simp only [Except.ok.injEq] at h
      rw [← h]

theorem Piano.ChangeSound_keyboard {P : Type} [PitchArith P] (loadFromFile : FsPath → Bool)
    (p q : Piano P) (key : Scan) (h : Piano.ChangeSound loadFromFile p key = .ok q)
    (j : Fin 25) : (q.notes j).keyboard = (p.notes j).keyboard := by
  unfold Piano.ChangeSound at h
  split at h
  · rw [Piano.LoadSound_notes loadFromFile _ q h]
  · split at h
    · rw [Piano.LoadSound_notes loadFromFile _ q h]
    · split at h
      · simp only [Except.ok.injEq] at h
        rw [← h]
        exact (Piano.SetPitch_fields _).2.2.2.2.1 j
      · split at h
        · simp only [Except.ok.injEq] at h
          rw [← h]
          exact (Piano.SetPitch_fields _).2.2.2.2.1 j
        · simp only [Except.ok.injEq] at h
          rw [← h]

theorem keyPressed_keyboard {P F : Type} [PitchArith P] [FloatArith F]
    (loadFromFile : FsPath → Bool) (p : Piano P) (s : Shooter F) (key : Scan)
    (q : Piano P) (t : Shooter F) (h : keyPressed loadFromFile p s key = .ok (q, t))
    (j : Fin 25) : (q.notes j).keyboard = (p.notes j).keyboard := by
  unfold keyPressed at h
  simp only at h
  cases hs : s.Shoot (p.PlaySounds key).2 with
  | error e => rw [hs] at h; exact absurd h (by simp)
  | ok s1 =>
    rw [hs] at h
    simp only at h
    cases hc : Piano.ChangeSound loadFromFile (p.PlaySounds key).1 key with
    | error e => rw [hc] at h; exact absurd h (by simp)
    | ok p1 =>
      rw [hc] at h
      simp only [Except.ok.injEq, Prod.mk.injEq] at h
      rw [← h.1, Piano.ChangeSound_keyboard loadFromFile _ p1 key hc j]
      exact Piano.PlaySounds_keyboard p key j

theorem runEvents_keyboard {P F : Type} [PitchArith P] [FloatArith F]
    (loadFromFile : FsPath → Bool) (events : List (Event F)) (st fin : Piano P × Shooter F)
    (h : runEvents loadFromFile st events = .ok fin) (j : Fin 25) :
    (fin.1.notes j).keyboard = (st.1.notes j).keyboard := by
  induction events generalizing st with
  | nil =>
    simp only [runEvents, Except.ok.injEq] at h
    rw [← h]
  | cons ev rest ih =>
    simp only [runEvents] at h
    cases hstep : handleEvent loadFromFile st ev with
    | error e => rw [hstep] at h; exact absurd h (by simp)
    | ok st1 =>
      rw [hstep] at h
      simp only at h
      rw [ih st1 h]
      cases ev with
      | key scancode =>
        exact keyPressed_keyboard loadFromFile st.1 st.2 scancode st1.1 st1.2 hstep j
      | frame dt =>
        simp only [handleEvent, Except.ok.injEq] at hstep
        rw [← hstep]

/-- Every piano the program reaches, from the constructor through any sequence of key
presses and frames, carries the key bindings the constructor assigned. -/
theorem program_keyboard {P F : Type} [PitchArith P] [FloatArith F] (entries : List FsPath)
    (loadFromFile : FsPath → Bool) (pianoMem : Piano P) (shooterMem : Shooter F)
    (events : List (Event F)) (fin : Piano P × Shooter F)
    (h : program entries loadFromFile pianoMem shooterMem events = .ok fin) (j : Fin 25) :
    (fin.1.notes j).keyboard = noteKeys j := by
  unfold program at h
  cases hc : Piano.construct entries loadFromFile pianoMem with
  | error e => rw [hc] at h; exact absurd h (by simp)
  | ok piano =>
    rw [hc] at h
    simp only at h
    rw [runEvents_keyboard loadFromFile events _ fin h j]
    obtain ⟨p2, hshape⟩ := Piano.construct_ok_shape entries loadFromFile pianoMem piano hc
    show (piano.notes j).keyboard = noteKeys j
    rw [hshape]
    exact Piano.bindKeys_keyboard _ j

theorem soundFiles_sampleEntries :
    soundFiles sampleEntries
      = [{ stem := "grand", extension := ".mp3" }, { stem := "organ", extension := ".mp3" }] := by
  simp [soundFiles, sampleEntries]

theorem samplePiano_constructed :
    Piano.construct sampleEntries (fun _ => true) blankPiano = .ok samplePiano := by
  rcases Piano.construct_cases sampleEntries (fun _ => true) blankPiano
    (by rw [soundFiles_sampleEntries]; decide) with ⟨p, hp, -⟩ | ⟨-, f, -, hbad⟩
  · simp only [samplePiano, hp]
  · exact absurd hbad (by simp)

theorem samplePiano_facts :
    samplePiano.paths
      = [{ stem := "grand", extension := ".mp3" }, { stem := "organ", extension := ".mp3" }] ∧
    samplePiano.current = 0 := by
  rcases Piano.construct_cases sampleEntries (fun _ => true) blankPiano
    (by rw [soundFiles_sampleEntries]; decide) with ⟨p, hp, h1, -, -, h2, -⟩ | ⟨-, f, -, hbad⟩
  · have hs : samplePiano = p := by simp only [samplePiano, hp]
    rw [hs, h1, h2, soundFiles_sampleEntries]
    exact ⟨rfl, by decide⟩
  · exact absurd hbad (by simp)

/-! ## Piano: the claims -/

/-- C6: with at least one sample and the current index `n` inside the list, the key Up
moves the index to `count - 1` when `n = 0` and to `n - 1` otherwise, the key Down moves it
to `0` when `n = count - 1` and to `n + 1` otherwise, and in every case the file handed to
the decoder is the path at the resulting index: when it decodes, the call returns the state
with that index and that file as the current sample, otherwise it throws the runtime
error. -/
theorem Piano.ChangeSound_sample_navigation {P : Type} [PitchArith P]
    (loadFromFile : FsPath → Bool) (p : Piano P) (n : Nat) (hn : n < p.paths.length)
    (hc : p.current = (n : Int)) :
    (∃ f, p.paths[if n = 0 then p.paths.length - 1 else n - 1]? = some f ∧
      p.ChangeSound loadFromFile Scan.Up =
        if loadFromFile f then
          .ok (p.withSample (if n = 0 then p.paths.length - 1 else n - 1) f)
        else .error (Fault.runtimeError "Can't load sound file")) ∧
    (∃ f, p.paths[if n + 1 = p.paths.length then 0 else n + 1]? = some f ∧
      p.ChangeSound loadFromFile Scan.Down =
        if loadFromFile f then
          .ok (p.withSample (if n + 1 = p.paths.length then 0 else n + 1) f)
        else .error (Fault.runtimeError "Can't load sound file")) := by
  constructor
  · have hlt : (if n = 0 then p.paths.length - 1 else n - 1) < p.paths.length := by
      split <;> omega
    refine ⟨p.paths.get ⟨_, hlt⟩, by simp, ?_⟩
    unfold Piano.ChangeSound
    rw [if_pos rfl]
    have hk : (if ({ p with current := p.current - 1 } : Piano P).current < 0 then
          (({ p with current := p.current - 1 } : Piano P).paths.length : Int) - 1
        else if ({ p with current := p.current - 1 } : Piano P).current
            ≥ (({ p with current := p.current - 1 } : Piano P).paths.length : Int) then 0
        else ({ p with current := p.current - 1 } : Piano P).current)
        = (((⟨_, hlt⟩ : Fin p.paths.length)).val : Int) := by
      simp only [hc]
      by_cases h0 : n = 0
      · subst h0
        simp only [if_true]
        rw [if_pos (by omega)]
        omega
      · rw [if_neg (by omega), if_neg (by omega)]
        simp only [if_neg h0]
        omega
    rw [Piano.LoadSound_eq loadFromFile { p with current := p.current - 1 } ⟨_, hlt⟩ hk]
    rfl
  · have hlt : (if n + 1 = p.paths.length then 0 else n + 1) < p.paths.length := by
      split <;> omega
    refine ⟨p.paths.get ⟨_, hlt⟩, by simp, ?_⟩
    unfold Piano.ChangeSound
    rw [if_neg (by decide), if_pos rfl]
    have hk : (if ({ p with current := p.current + 1 } : Piano P).current < 0 then
          (({ p with current := p.current + 1 } : Piano P).paths.length : Int) - 1
        else if ({ p with current := p.current + 1 } : Piano P).current
            ≥ (({ p with current := p.current + 1 } : Piano P).paths.length : Int) then 0
        else ({ p with current := p.current + 1 } : Piano P).current)
        = (((⟨_, hlt⟩ : Fin p.paths.length)).val : Int) := by
      simp only [hc]
      by_cases h0 : n + 1 = p.paths.length
      · simp only [if_pos h0]
        rw [if_neg (by omega), if_pos (by omega)]
        rfl
      · rw [if_neg (by omega), if_neg (by omega)]
        simp only [if_neg h0]
        omega
    rw [Piano.LoadSound_eq loadFromFile { p with current := p.current + 1 } ⟨_, hlt⟩ hk]
    rfl

theorem Piano.ChangeSound_sample_navigation_witness :
    0 < samplePiano.paths.length ∧ samplePiano.current = ((0 : Nat) : Int) ∧
    (∃ f, samplePiano.paths[if 0 = 0 then samplePiano.paths.length - 1 else 0 - 1]? = some f ∧
      samplePiano.ChangeSound (fun _ => true) Scan.Up =
        if (fun _ => true) f then
          .ok (samplePiano.withSample (if 0 = 0 then samplePiano.paths.length - 1 else 0 - 1) f)
        else .error (Fault.runtimeError "Can't load sound file")) ∧
    (∃ f, samplePiano.paths[if 0 + 1 = samplePiano.paths.length then 0 else 0 + 1]? = some f ∧
      samplePiano.ChangeSound (fun _ => true) Scan.Down =
        if (fun _ => true) f then
          .ok (samplePiano.withSample (if 0 + 1 = samplePiano.paths.length then 0 else 0 + 1) f)
        else .error (Fault.runtimeError "Can't load sound file")) :=
  ⟨by rw [samplePiano_facts.1]; decide, by rw [samplePiano_facts.2]; rfl,
    Piano.ChangeSound_sample_navigation (fun _ => true) samplePiano 0
      (by rw [samplePiano_facts.1]; decide) (by rw [samplePiano_facts.2]; rfl)⟩

/-- C8: the constructor assigns the key table `noteKeys`, and every piano the program
reaches from it, through any sequence of key presses and frames, still carries it, as does
the result of `PlaySounds` and of `ChangeSound`.  On every piano with that key table the 25
bindings are pairwise distinct; `PlaySounds(k)` returns `i` exactly when `k` is the key
bound to note `i` (so the key of note `i` returns `i`, and Y returns 12) and returns `-1`,
playing nothing, for every key bound to no note.  Each of Up, Down, Left and Right is bound
to no note, so for them the key-press handler leaves the shooter as it was; and for the key
of a note `ChangeSound` returns its argument unchanged, so the handler changes neither
sample index nor transpose. -/
theorem Piano.PlaySounds_key_table {P F : Type} [PitchArith P] [FloatArith F] (p : Piano P)
    (hk : ∀ i, (p.notes i).keyboard = noteKeys i) :
    (∀ (entries : List FsPath) (decode : FsPath → Bool) (pianoMem : Piano P)
        (shooterMem : Shooter F) (events : List (Event F)) (fin : Piano P × Shooter F),
      program entries decode pianoMem shooterMem events = .ok fin →
        ∀ i, (fin.1.notes i).keyboard = noteKeys i) ∧
    (∀ (key : Scan) (i : Fin 25), (((p.PlaySounds key).1).notes i).keyboard = noteKeys i) ∧
    (∀ (decode : FsPath → Bool) (key : Scan) (q : Piano P),
      p.ChangeSound decode key = .ok q → ∀ i, (q.notes i).keyboard = noteKeys i) ∧
    (∀ a b : Fin 25, (p.notes a).keyboard = (p.notes b).keyboard → a = b) ∧
    (∀ (key : Scan) (i : Fin 25),
      (p.PlaySounds key).2 = (i.val : Int) ↔ (p.notes i).keyboard = key) ∧
    (∀ i : Fin 25, p.PlaySounds (p.notes i).keyboard = (p.play i, (i.val : Int))) ∧
    (p.PlaySounds Scan.Y).2 = 12 ∧
    (∀ key : Scan, (∀ i, (p.notes i).keyboard ≠ key) → p.PlaySounds key = (p, -1)) ∧
    (∀ key ∈ [Scan.Up, Scan.Down, Scan.Left, Scan.Right],
      p.PlaySounds key = (p, -1) ∧
      ∀ (decode : FsPath → Bool) (s : Shooter F),
        s.Shoot (p.PlaySounds key).2 = .ok s ∧
        keyPressed decode p s key = (p.ChangeSound decode key).map (fun q => (q, s))) ∧
    (∀ (i : Fin 25) (decode : FsPath → Bool) (s : Shooter F),
      (p.play i).ChangeSound decode (p.notes i).keyboard = .ok (p.play i) ∧
      (p.play i).current = p.current ∧ (p.play i).transpose = p.transpose ∧
      keyPressed decode p s (p.notes i).keyboard
        = (s.Shoot (i.val : Int)).map (fun t => (p.play i, t))) := by
  have hkeys : ∀ i, (p.notes i).keyboard = noteKeys i := hk
  have hinj : ∀ a b : Fin 25, (p.notes a).keyboard = (p.notes b).keyboard → a = b := by
    intro a b hab
    rw [hkeys a, hkeys b] at hab
    exact noteKeys_injective a b hab
  have hbound : ∀ i : Fin 25, p.PlaySounds (p.notes i).keyboard = (p.play i, (i.val : Int)) :=
    fun i => Piano.PlaySounds_of_bound p i hinj
  have hctrl : ∀ key ∈ [Scan.Up, Scan.Down, Scan.Left, Scan.Right],
      ∀ i, (p.notes i).keyboard ≠ key := by
    intro key hkey i
    rw [hkeys i]
    have hnc := noteKeys_not_control i
    simp only [List.mem_cons, List.mem_singleton, List.not_mem_nil, or_false] at hkey
    rcases hkey with h | h | h | h <;> rw [h]
    · exact hnc.1
    · exact hnc.2.1
    · exact hnc.2.2.1
    · exact hnc.2.2.2
  refine ⟨?_, ?_, ?_, hinj, ?_, hbound, ?_,
    fun key h => Piano.PlaySounds_of_unbound p key h, ?_, ?_⟩
  · intro entries decode pianoMem shooterMem events fin hfin i
    exact program_keyboard entries decode pianoMem shooterMem events fin hfin i
  · intro key i
    rw [Piano.PlaySounds_keyboard p key i]
    exact hkeys i
  · intro decode key q hq i
    rw [Piano.ChangeSound_keyboard decode p q key hq i]
    exact hkeys i
  · intro key i
    constructor
    · intro hret
      by_cases hex : ∃ j, (p.notes j).keyboard = key
      · obtain ⟨j, hj⟩ := hex
        rw [← hj, hbound j] at hret
        simp only at hret
        have hji : j = i := Fin.ext (by exact_mod_cast hret)
        rw [← hji]
        exact hj
      · have hno : ∀ j, (p.notes j).keyboard ≠ key := fun j hj => hex ⟨j, hj⟩
        rw [Piano.PlaySounds_of_unbound p key hno] at hret
        simp only at hret
        omega
    · intro hkey
      rw [← hkey, hbound i]
  · have h12 : (p.notes 12).keyboard = Scan.Y := by rw [hkeys 12]; rfl
    rw [← h12, hbound 12]
    rfl
  · intro key hkey
    have hun := Piano.PlaySounds_of_unbound p key (hctrl key hkey)
    refine ⟨hun, fun decode s => ?_⟩
    have hshoot : s.Shoot (p.PlaySounds key).2 = .ok s := by
      rw [hun]
      exact Shooter.Shoot_of_invalid s (-1) (Or.inl (by decide))
    refine ⟨hshoot, ?_⟩
    unfold keyPressed
    simp only [hshoot]
    rw [hun]
    cases p.ChangeSound decode key <;> rfl
  · intro i decode s
    have hnc := noteKeys_not_control i
    rw [← hkeys i] at hnc
    refine ⟨?_, rfl, rfl, ?_⟩
    · exact Piano.ChangeSound_of_other decode _ _ hnc.1 hnc.2.1 hnc.2.2.1 hnc.2.2.2
    · unfold keyPressed
      simp only [hbound i]
      cases s.Shoot (i.val : Int) with
      | error e => rfl
      | ok t =>
        simp only [Piano.ChangeSound_of_other decode _ _ hnc.1 hnc.2.1 hnc.2.2.1 hnc.2.2.2]
        rfl

theorem Piano.PlaySounds_key_table_witness :
    (∀ i, (playedPiano.notes i).keyboard = noteKeys i) ∧
    ((∀ (entries : List FsPath) (decode : FsPath → Bool) (pianoMem : Piano PitchTerm)
        (shooterMem : Shooter ℚ) (events : List (Event ℚ)) (fin : Piano PitchTerm × Shooter ℚ),
      program entries decode pianoMem shooterMem events = .ok fin →
        ∀ i, (fin.1.notes i).keyboard = noteKeys i) ∧
    (∀ (key : Scan) (i : Fin 25),
      (((playedPiano.PlaySounds key).1).notes i).keyboard = noteKeys i) ∧
    (∀ (decode : FsPath → Bool) (key : Scan) (q : Piano PitchTerm),
      playedPiano.ChangeSound decode key = .ok q → ∀ i, (q.notes i).keyboard = noteKeys i) ∧
    (∀ a b : Fin 25, (playedPiano.notes a).keyboard = (playedPiano.notes b).keyboard → a = b) ∧
    (∀ (key : Scan) (i : Fin 25),
      (playedPiano.PlaySounds key).2 = (i.val : Int) ↔ (playedPiano.notes i).keyboard = key) ∧
    (∀ i : Fin 25, playedPiano.PlaySounds (playedPiano.notes i).keyboard
      = (playedPiano.play i, (i.val : Int))) ∧
    (playedPiano.PlaySounds Scan.Y).2 = 12 ∧
    (∀ key : Scan, (∀ i, (playedPiano.notes i).keyboard ≠ key) →
      playedPiano.PlaySounds key = (playedPiano, -1)) ∧
    (∀ key ∈ [Scan.Up, Scan.Down, Scan.Left, Scan.Right],
      playedPiano.PlaySounds key = (playedPiano, -1) ∧
      ∀ (decode : FsPath → Bool) (s : Shooter ℚ),
        s.Shoot (playedPiano.PlaySounds key).2 = .ok s ∧
        keyPressed decode playedPiano s key
          = (playedPiano.ChangeSound decode key).map (fun q => (q, s))) ∧
    (∀ (i : Fin 25) (decode : FsPath → Bool) (s : Shooter ℚ),
      (playedPiano.play i).ChangeSound decode (playedPiano.notes i).keyboard
        = .ok (playedPiano.play i) ∧
      (playedPiano.play i).current = playedPiano.current ∧
      (playedPiano.play i).transpose = playedPiano.transpose ∧
      keyPressed decode playedPiano s (playedPiano.notes i).keyboard
        = (s.Shoot (i.val : Int)).map (fun t => (playedPiano.play i, t)))) ∧
    (playedPiano.notes 12).plays = 1 ∧ playedPiano.transpose = -2 :=
  ⟨by decide, Piano.PlaySounds_key_table playedPiano (by decide), by decide, by decide⟩

/-- C10: when the directory holds at least one sound file, the constructor leaves the
index at 4 if there are more than four files and at 0 otherwise; no subscript of the path
list in the constructor or in any following sequence of `ChangeSound` calls is out of
bounds; every state reached has the path list of the constructor and
`0 <= current < count`; and a state is reached whenever every sound file decodes. -/
theorem Piano.current_always_inBounds {P : Type} [PitchArith P] (entries : List FsPath)
    (loadFromFile : FsPath → Bool) (mem : Piano P) (keys : List Scan)
    (hcount : 1 ≤ (soundFiles entries).length) :
    (∀ p, Piano.construct entries loadFromFile mem = .ok p →
      p.current = (if (4 : Int) < ((soundFiles entries).length : Int) then 4 else 0)) ∧
    Piano.run entries loadFromFile mem keys ≠ .error Fault.undefinedBehaviour ∧
    (∀ p, Piano.run entries loadFromFile mem keys = .ok p →
      p.paths = soundFiles entries ∧ 0 ≤ p.current ∧ p.current < (p.paths.length : Int)) ∧
    ((∀ f ∈ soundFiles entries, loadFromFile f = true) →
      ∃ p, Piano.run entries loadFromFile mem keys = .ok p) := by
  unfold Piano.run
  rcases Piano.construct_cases entries loadFromFile mem hcount with
    ⟨p, hp, hpaths, h0, h1, hcur, -⟩ | ⟨he, f, hf, hbad⟩
  · obtain ⟨hub, hinv, hall⟩ := Piano.changeAll_inBounds loadFromFile keys p h0 h1
    simp only [hp]
    refine ⟨?_, hub, ?_, ?_⟩
    · intro q hq
      simp only [Except.ok.injEq] at hq
      rw [← hq]
      exact hcur
    · intro q hq
      obtain ⟨hq1, hq2, hq3⟩ := hinv q hq
      exact ⟨hq1.trans hpaths, hq2, hq3⟩
    · intro hgood
      exact hall (by rw [hpaths]; exact hgood)
  · simp only [he]
    refine ⟨?_, by simp, ?_, ?_⟩
    · intro q hq
      exact absurd hq (by simp)
    · intro q hq
      exact absurd hq (by simp)
    · intro hgood
      rw [hgood f hf] at hbad
      exact absurd hbad (by simp)

theorem Piano.current_always_inBounds_witness :
    1 ≤ (soundFiles sampleEntries).length ∧
    ((∀ p, Piano.construct sampleEntries (fun _ => true) blankPiano = .ok p →
      p.current = (if (4 : Int) < ((soundFiles sampleEntries).length : Int) then 4 else 0)) ∧
    Piano.run sampleEntries (fun _ => true) blankPiano [Scan.Up, Scan.Up, Scan.Down, Scan.Left]
      ≠ .error Fault.undefinedBehaviour ∧
    (∀ p, Piano.run sampleEntries (fun _ => true) blankPiano
        [Scan.Up, Scan.Up, Scan.Down, Scan.Left] = .ok p →
      p.paths = soundFiles sampleEntries ∧ 0 ≤ p.current ∧ p.current < (p.paths.length : Int)) ∧
    ((∀ f ∈ soundFiles sampleEntries, (fun _ => true) f = true) →
      ∃ p, Piano.run sampleEntries (fun _ => true) blankPiano
        [Scan.Up, Scan.Up, Scan.Down, Scan.Left] = .ok p)) :=
  ⟨by rw [soundFiles_sampleEntries]; decide,
    Piano.current_always_inBounds sampleEntries (fun _ => true) blankPiano
      [Scan.Up, Scan.Up, Scan.Down, Scan.Left] (by rw [soundFiles_sampleEntries]; decide)⟩
